import Mathlib

/-!
Verification development for the `crevr` log parser and revert server.

The definitions below are a shallow embedding of `src/parser.ts`,
`src/types.ts` and the server file (`RevertServer`).  JavaScript values
that may be `undefined` at runtime are modelled with `Option`; JavaScript
truthiness of a string is "not the empty string".  File contents are
modelled as the list of already-split lines, where a line that fails
`JSON.parse` is `none` and a successfully decoded line is `some entry`.
String-producing library calls of the source (`trim`, `substring`,
`join`, `endsWith`, number stringification in template literals) are
embedded as executable functions on `String.data`.
-/

/-- Decimal digits of `n`, least significant first, with explicit fuel so the
definition is structural.  `decDigitsRev (n+1) n` is always fully determined. -/
def decDigitsRev : Nat → Nat → List Nat
  | 0, _ => []
  | fuel + 1, n => if n < 10 then [n] else n % 10 :: decDigitsRev fuel (n / 10)

/-- The character for a single decimal digit. -/
def digitChar : Nat → Char
  | 0 => '0' | 1 => '1' | 2 => '2' | 3 => '3' | 4 => '4'
  | 5 => '5' | 6 => '6' | 7 => '7' | 8 => '8' | _ => '9'

/-- Big-endian character list of the decimal representation of `n`. -/
def decChars (n : Nat) : List Char :=
  ((decDigitsRev (n + 1) n).reverse).map digitChar

/-- Embedding of JavaScript number-to-string conversion (as in template
literals such as `` `...-${changeIndex}` ``) for natural numbers. -/
def decRepr (n : Nat) : String :=
  String.mk (decChars n)

/-- Whitespace test used by the embedded `trim`. -/
def isWs (c : Char) : Bool :=
  c == ' ' || c == '\t' || c == '\n' || c == '\r'

/-- Embedding of JavaScript `String.prototype.trim`. -/
def jsTrim (s : String) : String :=
  String.mk ((((s.data.dropWhile isWs).reverse).dropWhile isWs).reverse)

/-- Embedding of JavaScript `String.prototype.substring(0, n)`. -/
def jsTake (s : String) (n : Nat) : String :=
  String.mk (s.data.take n)

/-- Embedding of JavaScript `String.prototype.endsWith`. -/
def jsEndsWith (s p : String) : Bool :=
  s.data.drop (s.data.length - p.data.length) == p.data

/-- Replace the first occurrence of `pat` in a character list by `repl`. -/
def replaceFirstAux (pat repl : List Char) : List Char → List Char
  | [] => []
  | c :: rest =>
    if pat.isPrefixOf (c :: rest) then repl ++ (c :: rest).drop pat.length
    else c :: replaceFirstAux pat repl rest

/-- Embedding of JavaScript `String.prototype.replace` with a plain-string
pattern (replaces the first occurrence only). -/
def jsReplaceFirst (s pat repl : String) : String :=
  String.mk (replaceFirstAux pat.data repl.data s.data)

/-- JavaScript truthiness of a possibly-`undefined` string. -/
def truthyStr : Option String → Bool
  | none => false
  | some s => !(s == "")

/-- One replacement operation, as in the `changes` payload of `FileChange`
(`types.ts`).  The extractor copies the raw tool input fields, which may be
absent at runtime, hence the `Option`s. -/
structure EditOp where
  oldString : Option String := none
  newString : Option String := none
  replaceAll : Option Bool := none
  deriving Repr, DecidableEq, Inhabited

/-- The `input` object of a `tool_use` content block (`input?: any` in
`types.ts`); every field may be absent. -/
structure ToolInput where
  file_path : Option String := none
  content : Option String := none
  old_string : Option String := none
  new_string : Option String := none
  replace_all : Option Bool := none
  edits : Option (List EditOp) := none
  deriving Repr, DecidableEq, Inhabited

/-- One element of an array-form `message.content` (`types.ts`). -/
structure ContentBlock where
  type : String
  name : Option String := none
  input : Option ToolInput := none
  text : Option String := none
  deriving Repr, DecidableEq, Inhabited

/-- `message.content`: either a plain string or an array of blocks. -/
inductive MessageContent where
  | str (s : String)
  | arr (blocks : List ContentBlock)
  deriving Repr, DecidableEq, Inhabited

/-- The `message` object of a log entry. -/
structure LogMessage where
  content : MessageContent
  deriving Repr, DecidableEq, Inhabited

/-- One decoded log line (`ClaudeLogEntry` in `types.ts`).  `timestamp` is
optional because the code guards every use with a truthiness check. -/
structure ClaudeLogEntry where
  type : String
  timestamp : Option String := none
  message : Option LogMessage := none
  deriving Repr, DecidableEq, Inhabited

/-- A normalized file mutation (`FileChange` in `types.ts`).  `filePath` is
`Option` because the extractor copies `input?.file_path`, which can be
absent at runtime even though the TypeScript interface declares `string`. -/
structure FileChange where
  id : String
  timestamp : Option String := none
  type : String
  filePath : Option String := none
  oldContent : Option String := none
  newContent : Option String := none
  changes : Option (List EditOp) := none
  isLatestSession : Option Bool := none
  deriving Repr, DecidableEq, Inhabited

/-- Truthiness of the optional entry timestamp. -/
def tsTruthy (ts : Option String) : Bool :=
  truthyStr ts

/-- Template-literal stringification of the (possibly absent) timestamp:
JavaScript renders `undefined` as the literal text `"undefined"`. -/
def tsTemplate : Option String → String
  | none => "undefined"
  | some t => t

/-- Value of `timestamp || ''`. -/
def tsOrEmpty (ts : Option String) : String :=
  match ts with
  | some t => if t == "" then "" else t
  | none => ""

/-- Value of `entry.timestamp || new Date().toISOString()`, with the clock
value passed in as `now`. -/
def tsOrNow (now : String) (ts : Option String) : String :=
  match ts with
  | some t => if t == "" then now else t
  | none => now

/-- The `input?.field` accessor for an optional tool input. -/
def fpOf (b : ContentBlock) : Option String :=
  b.input.bind (·.file_path)

/-- Truthiness of `entry.message?.content`. -/
def contentTruthy (e : ClaudeLogEntry) : Bool :=
  match e.message with
  | none => false
  | some m =>
    match m.content with
    | .str s => !(s == "")
    | .arr _ => true

/-- `entry.message?.content && Array.isArray(entry.message.content)`. -/
def isArrContent (e : ClaudeLogEntry) : Bool :=
  match e.message with
  | none => false
  | some m =>
    match m.content with
    | .str _ => false
    | .arr _ => true

/-- The blocks of an array-form content, `[]` otherwise. -/
def arrBlocks (e : ClaudeLogEntry) : List ContentBlock :=
  match e.message with
  | some ⟨.arr blocks⟩ => blocks
  | _ => []

/-- Embedding of `ClaudeLogParser.extractFileChange` (the flat path) on the
blocks of an array content: return on the FIRST `Write`/`Edit`/`MultiEdit`
`tool_use` block, skipping every other block (`default: continue`). -/
def flatAux (ts : Option String) : List ContentBlock → Option FileChange
  | [] => none
  | b :: rest =>
    if b.type == "tool_use" then
      match b.name with
      | some "Write" =>
        some { id := tsTemplate ts ++ "-write", timestamp := ts, type := "write",
               filePath := b.input.bind (·.file_path),
               newContent := b.input.bind (·.content) }
      | some "Edit" =>
        some { id := tsTemplate ts ++ "-edit", timestamp := ts, type := "edit",
               filePath := b.input.bind (·.file_path),
               changes := some [{ oldString := b.input.bind (·.old_string),
                                  newString := b.input.bind (·.new_string),
                                  replaceAll := b.input.bind (·.replace_all) }] }
      | some "MultiEdit" =>
        some { id := tsTemplate ts ++ "-multiedit", timestamp := ts, type := "edit",
               filePath := b.input.bind (·.file_path),
               changes := b.input.bind (·.edits) }
      | _ => flatAux ts rest
    else flatAux ts rest

/-- Embedding of `ClaudeLogParser.extractFileChange`. -/
def extractFileChange (e : ClaudeLogEntry) : Option FileChange :=
  match e.message with
  | some ⟨.arr blocks⟩ => flatAux e.timestamp blocks
  | _ => none

/-- Embedding of `ClaudeLogParser.parseLogFile`: per-line decoding where a
line that fails to parse (`none`) is skipped, and an `assistant` entry with
truthy content contributes at most the one change `extractFileChange`
returns. -/
def parseLogFileE : List (Option ClaudeLogEntry) → List FileChange
  | [] => []
  | none :: rest => parseLogFileE rest
  | some e :: rest =>
    if e.type == "assistant" && contentTruthy e then
      match extractFileChange e with
      | some c => c :: parseLogFileE rest
      | none => parseLogFileE rest
    else parseLogFileE rest

/-- Is this tool name one of the three file-mutating tools. -/
def mutName (n : Option String) : Bool :=
  n == some "Write" || n == some "Edit" || n == some "MultiEdit"

/-- A `tool_use` block invoking a file-mutating tool. -/
def mutBlock (b : ContentBlock) : Bool :=
  b.type == "tool_use" && mutName b.name

/-- A file-mutating `tool_use` block whose `input?.file_path` is truthy. -/
def mutPathBlock (b : ContentBlock) : Bool :=
  mutBlock b && truthyStr (fpOf b)

/-- Id string built by `extractAllFileChanges`:
`` `${turnId}-${timestamp}-<tool>-${changeIndex}` ``.  The `tag` argument is
the `"-write-"` / `"-edit-"` / `"-multiedit-"` middle part. -/
def mkId (turnId tsId tag : String) (k : Nat) : String :=
  turnId ++ "-" ++ tsId ++ tag ++ decRepr k

/-- One `switch (toolName)` arm of `extractAllFileChanges`. -/
def mkTurnChange (turnId tsId ts : String) (isLatest : Bool)
    (name : Option String) (input : Option ToolInput) (k : Nat) : Option FileChange :=
  match name with
  | some "Write" =>
    some { id := mkId turnId tsId "-write-" k, timestamp := some ts, type := "write",
           filePath := input.bind (·.file_path),
           newContent := input.bind (·.content),
           isLatestSession := some isLatest }
  | some "Edit" =>
    some { id := mkId turnId tsId "-edit-" k, timestamp := some ts, type := "edit",
           filePath := input.bind (·.file_path),
           changes := some [{ oldString := input.bind (·.old_string),
                              newString := input.bind (·.new_string),
                              replaceAll := input.bind (·.replace_all) }],
           isLatestSession := some isLatest }
  | some "MultiEdit" =>
    some { id := mkId turnId tsId "-multiedit-" k, timestamp := some ts, type := "edit",
           filePath := input.bind (·.file_path),
           changes := input.bind (·.edits),
           isLatestSession := some isLatest }
  | _ => none

/-- Loop of `ClaudeLogParser.extractAllFileChanges`: `changeIndex` is
incremented on every `tool_use` block (of any tool), and a built change is
kept only when its `filePath` is truthy. -/
def extractAllFileChangesAux (turnId tsId ts : String) (isLatest : Bool) :
    List ContentBlock → Nat → List FileChange
  | [], _ => []
  | b :: rest, idx =>
    if b.type == "tool_use" then
      match mkTurnChange turnId tsId ts isLatest b.name b.input (idx + 1) with
      | some ch =>
        if truthyStr ch.filePath then
          ch :: extractAllFileChangesAux turnId tsId ts isLatest rest (idx + 1)
        else extractAllFileChangesAux turnId tsId ts isLatest rest (idx + 1)
      | none => extractAllFileChangesAux turnId tsId ts isLatest rest (idx + 1)
    else extractAllFileChangesAux turnId tsId ts isLatest rest idx

/-- Embedding of `ClaudeLogParser.extractAllFileChanges`. -/
def extractAllFileChanges (e : ClaudeLogEntry) (turnId : String) (isLatest : Bool) :
    List FileChange :=
  match e.message with
  | some ⟨.arr blocks⟩ =>
    extractAllFileChangesAux turnId (tsTemplate e.timestamp) (tsOrEmpty e.timestamp)
      isLatest blocks 0
  | _ => []

/-- Embedding of `ClaudeLogParser.isToolResultEntry`: truthy-text test
`content.type === 'text' && content.text && content.text.trim()`. -/
def textTruthy (b : ContentBlock) : Bool :=
  match b.text with
  | none => false
  | some t => !(t == "") && !(jsTrim t == "")

/-- Embedding of `ClaudeLogParser.isToolResultEntry`. -/
def isToolResultEntry (e : ClaudeLogEntry) : Bool :=
  match e.message with
  | none => false
  | some m =>
    match m.content with
    | .str _ => false
    | .arr blocks =>
      if blocks.any (fun b => b.type == "text" && textTruthy b) then false
      else blocks.any (fun b => b.type == "tool_result")

/-- Embedding of `ClaudeLogParser.extractUserMessage`. -/
def extractUserMessage (e : ClaudeLogEntry) : String :=
  match e.message with
  | none => "No message"
  | some m =>
    match m.content with
    | .str s =>
      if s == "" then "No message"
      else if jsTrim s == "" then "No message" else jsTrim s
    | .arr blocks =>
      match blocks.find? (fun b => b.type == "text" && textTruthy b) with
      | some b => b.text.getD ""
      | none => "No message"

/-- Embedding of `ClaudeLogParser.extractAssistantText`. -/
def extractAssistantText (e : ClaudeLogEntry) : String :=
  match e.message with
  | none => ""
  | some m =>
    match m.content with
    | .str s => jsTrim s
    | .arr blocks =>
      match (blocks.filterMap fun b =>
        if b.type == "text" && textTruthy b then some (jsTrim (b.text.getD "")) else none) with
      | [] => ""
      | p :: ps => ps.foldl (fun acc x => acc ++ "\n\n" ++ x) p

/-- A conversation turn (`ConversationTurn` in `types.ts`). -/
structure ConversationTurn where
  id : String
  timestamp : String
  userMessage : String
  userMessageFull : String
  assistantMessage : String
  fileChanges : List FileChange
  isLatestSession : Bool
  deriving Repr, DecidableEq, Inhabited

/-- State of the turn-building loop in `getSessionWithTurns`. -/
structure TurnState where
  turns : List ConversationTurn
  currentTurn : Option ConversationTurn
  turnCounter : Nat
  deriving Repr, DecidableEq, Inhabited

/-- Push the open turn onto the emitted list when it has at least one file
change (the guard at lines 388 and 446 of `parser.ts`). -/
def closeTurn (st : TurnState) : List ConversationTurn :=
  match st.currentTurn with
  | some t => if t.fileChanges.length > 0 then st.turns ++ [t] else st.turns
  | none => st.turns

/-- The `user`-entry half of the loop body of `getSessionWithTurns`. -/
def processUser (sid now : String) (isLatest : Bool) (st : TurnState)
    (e : ClaudeLogEntry) : TurnState :=
  if e.type == "user" && !(isToolResultEntry e) then
    { turns := closeTurn st,
      turnCounter := st.turnCounter + 1,
      currentTurn := some
        { id := sid ++ "-turn-" ++ decRepr (st.turnCounter + 1),
          timestamp := tsOrNow now e.timestamp,
          userMessage := extractUserMessage e,
          userMessageFull := extractUserMessage e,
          assistantMessage := "",
          fileChanges := [],
          isLatestSession := isLatest } }
  else st

/-- Append extracted changes and assistant text to an open turn. -/
def appendToTurn (t : ConversationTurn) (changes : List FileChange)
    (atext : String) : ConversationTurn :=
  { t with
    fileChanges := t.fileChanges ++ changes,
    assistantMessage :=
      if atext == "" then t.assistantMessage
      else if t.assistantMessage == "" then atext
      else t.assistantMessage ++ "\n\n" ++ atext }

/-- Resolve `currentTurn?.id || sessionId-turn-0`. -/
def turnIdOf (sid : String) (cur : Option ConversationTurn) : String :=
  match cur with
  | some t => if t.id == "" then sid ++ "-turn-0" else t.id
  | none => sid ++ "-turn-0"

/-- The `assistant`-entry half of the loop body of `getSessionWithTurns`:
extract the changes with the current turn id (or the `turn-0` placeholder),
synthesize a default turn when none is open and the entry produced changes
or text, and append to the open turn. -/
def processAssistant (sid now : String) (isLatest : Bool) (st : TurnState)
    (e : ClaudeLogEntry) : TurnState :=
  if e.type == "assistant" && isArrContent e then
    let changes := extractAllFileChanges e (turnIdOf sid st.currentTurn) isLatest
    let atext := extractAssistantText e
    match st.currentTurn with
    | none =>
      if changes.length > 0 || !(atext == "") then
        { st with
          turnCounter := st.turnCounter + 1,
          currentTurn := some (appendToTurn
            { id := sid ++ "-turn-" ++ decRepr (st.turnCounter + 1),
              timestamp := tsOrNow now e.timestamp,
              userMessage := "No message",
              userMessageFull := "No message",
              assistantMessage := "",
              fileChanges := [],
              isLatestSession := isLatest } changes atext) }
      else st
    | some t => { st with currentTurn := some (appendToTurn t changes atext) }
  else st

/-- One iteration of the loop of `getSessionWithTurns` (an entry has a
single `type`, so at most one of the two halves acts). -/
def processEntry (sid now : String) (isLatest : Bool) (st : TurnState)
    (e : ClaudeLogEntry) : TurnState :=
  processAssistant sid now isLatest (processUser sid now isLatest st e) e

/-- The turn list built by `getSessionWithTurns` from the decoded entries. -/
def buildTurns (sid now : String) (isLatest : Bool)
    (entries : List ClaudeLogEntry) : List ConversationTurn :=
  closeTurn (entries.foldl (processEntry sid now isLatest) ⟨[], none, 0⟩)

/-- The turn list of `getSessionWithTurns` from the raw lines: lines that
fail to decode are dropped first (lines 365–373 of `parser.ts`). -/
def getSessionWithTurnsTurns (sid now : String) (isLatest : Bool)
    (lines : List (Option ClaudeLogEntry)) : List ConversationTurn :=
  buildTurns sid now isLatest (lines.filterMap id)

/-- Session summary record (`SessionMetadata` in `types.ts`). -/
structure SessionMetadata where
  sessionId : String
  mtime : Nat
  timestamp : String
  userMessage : String
  fileCount : Nat
  isLatest : Bool
  deriving Repr, DecidableEq, Inhabited

/-- A session file as seen by the locator: its (base)name, its filesystem
modification time, and its decoded lines. -/
structure SessionFile where
  name : String
  mtime : Nat
  lines : List (Option ClaudeLogEntry)
  deriving Repr, DecidableEq, Inhabited

/-- State of the single scanning pass of `extractSessionMetadata`. -/
structure MetaScan where
  timestamp : String := ""
  firstUserMessage : String := "No message"
  fileCount : Nat := 0
  deriving Repr, DecidableEq, Inhabited

/-- One iteration of the scanning loop of `extractSessionMetadata`; a line
that fails to decode is skipped (`catch { continue }`). -/
def metaStep (st : MetaScan) (l : Option ClaudeLogEntry) : MetaScan :=
  match l with
  | none => st
  | some e =>
    let st1 :=
      if st.timestamp == "" && tsTruthy e.timestamp then
        { st with timestamp := (e.timestamp).getD "" }
      else st
    let st2 :=
      if e.type == "user" && st1.firstUserMessage == "No message" && contentTruthy e then
        match e.message with
        | some m =>
          match m.content with
          | .str s => { st1 with firstUserMessage := jsTake s 100 }
          | .arr blocks =>
            match blocks.find? (fun b => b.type == "text" && truthyStr b.text) with
            | some b => { st1 with firstUserMessage := jsTake (b.text.getD "") 100 }
            | none => st1
        | none => st1
      else st1
    if e.type == "assistant" && isArrContent e then
      { st2 with fileCount := st2.fileCount + (arrBlocks e).countP mutBlock }
    else st2

/-- Embedding of `ClaudeLogParser.extractSessionMetadata` (its pure part;
`now` stands for `new Date().toISOString()` and `f.name` for the basename
of the file). -/
def extractSessionMetadata (now : String) (f : SessionFile) : SessionMetadata :=
  let scan := f.lines.foldl metaStep {}
  { sessionId := jsReplaceFirst f.name ".jsonl" "",
    mtime := f.mtime,
    timestamp := if scan.timestamp == "" then now else scan.timestamp,
    userMessage := scan.firstUserMessage,
    fileCount := scan.fileCount,
    isLatest := false }

/-- The descending-mtime comparator of `getAllSessionMetadata`
(`(a, b) => b.mtime - a.mtime`, i.e. `a` before `b` iff `b.mtime ≤ a.mtime`). -/
def mtimeGe (a b : SessionMetadata) : Prop :=
  b.mtime ≤ a.mtime

instance : DecidableRel mtimeGe := fun a b => Nat.decLe b.mtime a.mtime

instance : IsTotal SessionMetadata mtimeGe :=
  ⟨fun a b => (Nat.le_total b.mtime a.mtime).imp id id⟩

instance : IsTrans SessionMetadata mtimeGe :=
  ⟨fun _ _ _ h1 h2 => Nat.le_trans h2 h1⟩

/-- Embedding of `ClaudeLogParser.getAllSessionMetadata` (pure part): keep
the `.jsonl` files, summarize each, sort by modification time descending,
and set `isLatest` on index 0 only. -/
def getAllSessionMetadata (now : String) (files : List SessionFile) :
    List SessionMetadata :=
  let jsonl := files.filter (fun f => jsEndsWith f.name ".jsonl")
  let sessions := jsonl.map (extractSessionMetadata now)
  match List.insertionSort mtimeGe sessions with
  | [] => []
  | s :: rest => { s with isLatest := true } :: rest

/-- A diff-annotated change (`ParsedChange` in `types.ts`), restricted to
the fields the revert path reads. -/
structure ParsedChange where
  id : String
  timestamp : String
  type : String
  filePath : String
  oldContent : Option String := none
  newContent : Option String := none
  canRevert : Bool
  deriving Repr, DecidableEq, Inhabited

/-- Shared state of the revert engine: the persisted ledger of reverted
change ids (id ↦ revert time) and the target files on disk (path ↦ content). -/
structure TrackerState where
  ledger : List (String × String)
  fs : List (String × String)
  deriving Repr, DecidableEq, Inhabited

/-- Typed failures of `revertChange`. -/
inductive RevertError where
  | notRevertable
  | notFound
  | ioFailure
  deriving Repr, DecidableEq

/-- Error text sent to the client for a revert failure. -/
def errMsg : RevertError → String
  | .notRevertable => "Change cannot be reverted"
  | .notFound => "Change not found"
  | .ioFailure => "Failed to revert change"

/-- Look up a key in an association list. -/
def alistLookup (l : List (String × String)) (k : String) : Option String :=
  match l.find? (fun p => p.1 == k) with
  | some p => some p.2
  | none => none

/-- Upsert a key in an association list (append-or-update, never delete). -/
def alistUpsert (l : List (String × String)) (k v : String) : List (String × String) :=
  if l.any (fun p => p.1 == k) then
    l.map (fun p => if p.1 == k then (k, v) else p)
  else l ++ [(k, v)]

/-- Remove a key from an association list. -/
def alistRemove (l : List (String × String)) (k : String) : List (String × String) :=
  l.filter (fun p => !(p.1 == k))

/-- Modelled from the spec: `ChangeTracker.revertChange` — the file
`change-tracker.ts` is not under `src/`, so the operation is modelled from
§4.5 of the specification.  Step 1 rejects a non-revertable change with a
typed error and no filesystem action.  Step 2 deletes the target when the
"before" snapshot is empty (a creation), treating an absent file as
success.  Step 3 overwrites the target with the "before" snapshot.  Step 4
upserts the ledger entry only on success, and step 5 makes steps 3 and 4
all-or-nothing.  `ioOk` is the outcome of the write/rename/delete issued
by the operation: `false` means the filesystem call fails. -/
def revertChange (ioOk : Bool) (now : String) (ch : ParsedChange)
    (st : TrackerState) : Except RevertError TrackerState :=
  if !ch.canRevert then .error .notRevertable
  else if (ch.oldContent.getD "") == "" then
    match alistLookup st.fs ch.filePath with
    | none => .ok { st with ledger := alistUpsert st.ledger ch.id now }
    | some _ =>
      if ioOk then
        .ok { fs := alistRemove st.fs ch.filePath,
              ledger := alistUpsert st.ledger ch.id now }
      else .error .ioFailure
  else
    if ioOk then
      .ok { fs := alistUpsert st.fs ch.filePath (ch.oldContent.getD ""),
            ledger := alistUpsert st.ledger ch.id now }
    else .error .ioFailure

/-- Messages `handleRevert` sends back over the websocket. -/
inductive WsMessage where
  | revertSuccess (changeId : String)
  | revertError (msg : String)
  deriving Repr, DecidableEq

/-- Embedding of `RevertServer.handleRevert`: look the change up in the
in-memory list, run the tracker's revert, and report success or the
caught error; a thrown error leaves the tracker state as `revertChange`
left it (all-or-nothing by §4.5, hence unchanged on failure). -/
def handleRevert (ioOk : Bool) (now : String) (changes : List ParsedChange)
    (changeId : String) (st : TrackerState) : WsMessage × TrackerState :=
  match changes.find? (fun c => c.id == changeId) with
  | none => (.revertError (errMsg .notFound), st)
  | some ch =>
    match revertChange ioOk now ch st with
    | .ok st1 => (.revertSuccess changeId, st1)
    | .error e => (.revertError (errMsg e), st)

/-! ### Specification-side definitions and concrete data -/

/-- Value of a little-endian digit list. -/
def ofDigitsRev : List Nat → Nat
  | [] => 0
  | d :: ds => d + 10 * ofDigitsRev ds

/-- The three possible middle tags of a change id. -/
def IsTag (tag : String) : Prop :=
  tag = "-write-" ∨ tag = "-edit-" ∨ tag = "-multiedit-"

/-- Does the entry yield at least one extracted change: array-form content
with some file-mutating `tool_use` block whose path is truthy. -/
def hasChangeB (e : ClaudeLogEntry) : Bool :=
  isArrContent e && (arrBlocks e).any mutPathBlock

/-- An entry that leaves the empty turn-builder state untouched: neither a
genuine user message nor an assistant entry with array content producing a
change or text. -/
def inertEntry (e : ClaudeLogEntry) : Bool :=
  !(e.type == "user" && !(isToolResultEntry e)) &&
  !(e.type == "assistant" && isArrContent e &&
    (hasChangeB e || !(extractAssistantText e == "")))

/-- Claim C4 as stated: echo iff array form, NO `text` block at all, and at
least one `tool_result` block. -/
def claimC4Echo (e : ClaudeLogEntry) : Bool :=
  isArrContent e && !((arrBlocks e).any (fun b => b.type == "text")) &&
  (arrBlocks e).any (fun b => b.type == "tool_result")

/-- A `text` payload that is non-empty after trimming whitespace. -/
def nonBlankText (b : ContentBlock) : Bool :=
  match b.text with
  | none => false
  | some t => !(jsTrim t == "")

/-- Amended C4 condition: echo iff array form, no `text` block with
non-whitespace text, and at least one `tool_result` block. -/
def echoAmended (e : ClaudeLogEntry) : Bool :=
  isArrContent e && !((arrBlocks e).any (fun b => b.type == "text" && nonBlankText b)) &&
  (arrBlocks e).any (fun b => b.type == "tool_result")

/-- Claim C9's count, written from the claim: the total number of
`Write`/`Edit`/`MultiEdit` `tool_use` blocks across all parseable
assistant entries with array-form content. -/
def specFileCount (lines : List (Option ClaudeLogEntry)) : Nat :=
  (((lines.filterMap id).filter
      (fun e => e.type == "assistant" && isArrContent e)).map
    (fun e => (arrBlocks e).countP mutBlock)).sum

/-- A `Write` invocation with a target path. -/
def wBlock (p c : String) : ContentBlock :=
  { type := "tool_use", name := some "Write",
    input := some { file_path := some p, content := some c } }

/-- A `Write` invocation whose input carries no `file_path`. -/
def wBlockNoPath : ContentBlock :=
  { type := "tool_use", name := some "Write", input := some {} }

/-- A `text` content block. -/
def textBlock (t : String) : ContentBlock :=
  { type := "text", text := some t }

/-- An assistant entry with array-form content. -/
def asstEntry (ts : String) (bl : List ContentBlock) : ClaudeLogEntry :=
  { type := "assistant", timestamp := some ts, message := some ⟨.arr bl⟩ }

/-- A user entry with string-form content. -/
def userEntryStr (ts s : String) : ClaudeLogEntry :=
  { type := "user", timestamp := some ts, message := some ⟨.str s⟩ }

/-- Assistant entry holding a single pathless `Write` invocation. -/
def entryC2 : ClaudeLogEntry :=
  asstEntry "T" [wBlockNoPath]

/-- The blocks of `entryC3`: two `Write` invocations in one entry. -/
def blocksC3 : List ContentBlock :=
  [wBlock "a" "x", wBlock "b" "y"]

/-- Assistant entry holding two `Write` invocations. -/
def entryC3 : ClaudeLogEntry :=
  asstEntry "T" blocksC3

/-- A user entry whose array content holds an empty `text` block and a
`tool_result` block. -/
def entryC4 : ClaudeLogEntry :=
  { type := "user", timestamp := some "T",
    message := some ⟨.arr [textBlock "", { type := "tool_result" }]⟩ }

/-- A session in which two assistant entries of the same turn share the
timestamp `"T"`, each with one `Write`. -/
def entriesC5 : List ClaudeLogEntry :=
  [userEntryStr "T0" "hi", asstEntry "T" [wBlock "a" "x"], asstEntry "T" [wBlock "b" "y"]]

/-- A session whose first entry is a text-only assistant entry and whose
second is a file-mutating assistant entry; no user message at all. -/
def entriesC10 : List ClaudeLogEntry :=
  [asstEntry "T" [textBlock "hello"], asstEntry "T" [wBlock "a" "x"]]

/-- A file-mutating assistant entry used as a witness input. -/
def entryW10 : ClaudeLogEntry :=
  asstEntry "T" [wBlock "a" "x"]

/-- Session files for the C1 witness. -/
def filesC1 : List SessionFile :=
  [⟨"a.jsonl", 5, [some (userEntryStr "T1" "q1")]⟩, ⟨"b.jsonl", 9, []⟩, ⟨"c.txt", 99, []⟩]

/-- A revertable change whose "before" snapshot is non-empty. -/
def changeC8 : ParsedChange :=
  { id := "c1", timestamp := "T", type := "write", filePath := "f",
    oldContent := some "old", canRevert := true }

/-- Invariant carried through the turn-builder loop once an early
file-mutating assistant entry has opened the synthesized `turn-1`: that
turn is still open (and no turn emitted yet), or it is the first emitted
turn; either way its change list starts with the early changes `chs`. -/
def TurnInv (sid : String) (chs : List FileChange) (st : TurnState) : Prop :=
  (st.turns = [] ∧ ∃ t, st.currentTurn = some t ∧ t.id = sid ++ "-turn-1" ∧
    ∃ more, t.fileChanges = chs ++ more) ∨
  (∃ t ts2, st.turns = t :: ts2 ∧ t.id = sid ++ "-turn-1" ∧
    ∃ more, t.fileChanges = chs ++ more)

/-- The three `switch (toolName)` arms of `extractFileChange`, factored
per content block: the FileChange the flat path builds from one
file-mutating `tool_use` block, `none` for any other tool name. -/
def mkFlatChange (ts : Option String) (b : ContentBlock) : Option FileChange :=
  match b.name with
  | some "Write" =>
    some { id := tsTemplate ts ++ "-write", timestamp := ts, type := "write",
           filePath := b.input.bind (·.file_path),
           newContent := b.input.bind (·.content) }
  | some "Edit" =>
    some { id := tsTemplate ts ++ "-edit", timestamp := ts, type := "edit",
           filePath := b.input.bind (·.file_path),
           changes := some [{ oldString := b.input.bind (·.old_string),
                              newString := b.input.bind (·.new_string),
                              replaceAll := b.input.bind (·.replace_all) }] }
  | some "MultiEdit" =>
    some { id := tsTemplate ts ++ "-multiedit", timestamp := ts, type := "edit",
           filePath := b.input.bind (·.file_path),
           changes := b.input.bind (·.edits) }
  | _ => none

/-! ### Decimal representation: injectivity -/

theorem ofDigitsRev_decDigitsRev :
    ∀ fuel n, n < fuel → ofDigitsRev (decDigitsRev fuel n) = n := by
  intro fuel
  induction fuel with
  | zero => intro n h; omega
  | succ fuel ih =>
    intro n h
    by_cases h10 : n < 10
    · simp [decDigitsRev, h10, ofDigitsRev]
    · have hpos : 0 < n := by omega
      have hdiv : n / 10 < n := Nat.div_lt_self hpos (by omega)
      have : n / 10 < fuel := by omega
      simp only [decDigitsRev, h10, if_false, ofDigitsRev]
      rw [ih (n / 10) this]
      omega

theorem decDigitsRev_lt :
    ∀ fuel n, ∀ d ∈ decDigitsRev fuel n, d < 10 := by
  intro fuel
  induction fuel with
  | zero => intro n d hd; simp [decDigitsRev] at hd
  | succ fuel ih =>
    intro n d hd
    by_cases h10 : n < 10
    · simp [decDigitsRev, h10] at hd; omega
    · simp only [decDigitsRev, h10, if_false, List.mem_cons] at hd
      rcases hd with h | h
      · omega
      · exact ih _ _ h

theorem digitChar_inj : ∀ d e, d < 10 → e < 10 → digitChar d = digitChar e → d = e := by
  intro d e hd he h
  interval_cases d <;> interval_cases e <;> revert h <;> decide

theorem map_digitChar_inj :
    ∀ l1 l2 : List Nat, (∀ x ∈ l1, x < 10) → (∀ x ∈ l2, x < 10) →
      l1.map digitChar = l2.map digitChar → l1 = l2 := by
  intro l1
  induction l1 with
  | nil => intro l2 _ _ h; cases l2 <;> simp_all
  | cons a l ih =>
    intro l2 h1 h2 h
    cases l2 with
    | nil => simp at h
    | cons b l2t =>
      simp only [List.map_cons, List.cons.injEq] at h
      have ha : a = b := digitChar_inj a b (h1 a (by simp)) (h2 b (by simp)) h.1
      have hl : l = l2t := ih l2t (fun x hx => h1 x (by simp [hx]))
        (fun x hx => h2 x (by simp [hx])) h.2
      rw [ha, hl]

theorem decRepr_inj : ∀ m n, decRepr m = decRepr n → m = n := by
  intro m n h
  have hdata : decChars m = decChars n := congrArg String.data h
  unfold decChars at hdata
  have hrev : (decDigitsRev (m + 1) m).reverse = (decDigitsRev (n + 1) n).reverse :=
    map_digitChar_inj _ _
      (fun x hx => decDigitsRev_lt _ _ x (List.mem_reverse.mp hx))
      (fun x hx => decDigitsRev_lt _ _ x (List.mem_reverse.mp hx)) hdata
  have hdig : decDigitsRev (m + 1) m = decDigitsRev (n + 1) n :=
    List.reverse_injective hrev
  have hm := ofDigitsRev_decDigitsRev (m + 1) m (by omega)
  have hn := ofDigitsRev_decDigitsRev (n + 1) n (by omega)
  rw [← hm, ← hn, hdig]

/-! ### Change ids built by `extractAllFileChanges` -/

theorem tag_repr_inj (tag1 tag2 : String) (i j : Nat)
    (h1 : IsTag tag1) (h2 : IsTag tag2)
    (h : tag1.data ++ (decRepr i).data = tag2.data ++ (decRepr j).data) :
    i = j := by
  rcases h1 with rfl | rfl | rfl <;> rcases h2 with rfl | rfl | rfl
  · exact decRepr_inj i j (String.ext (List.append_cancel_left h))
  · have hq := congrArg (fun l => l[1]?) h; simp at hq
  · have hq := congrArg (fun l => l[1]?) h; simp at hq
  · have hq := congrArg (fun l => l[1]?) h; simp at hq
  · exact decRepr_inj i j (String.ext (List.append_cancel_left h))
  · have hq := congrArg (fun l => l[1]?) h; simp at hq
  · have hq := congrArg (fun l => l[1]?) h; simp at hq
  · have hq := congrArg (fun l => l[1]?) h; simp at hq
  · exact decRepr_inj i j (String.ext (List.append_cancel_left h))

theorem mkId_inj_k (tid tsid tag1 tag2 : String) (i j : Nat)
    (h1 : IsTag tag1) (h2 : IsTag tag2)
    (h : mkId tid tsid tag1 i = mkId tid tsid tag2 j) : i = j := by
  have hd := congrArg String.data h
  have hdash : ("-" : String).data = ['-'] := rfl
  simp only [mkId, String.data_append, hdash, List.append_assoc] at hd
  exact tag_repr_inj tag1 tag2 i j h1 h2
    (List.append_cancel_left (List.append_cancel_left (List.append_cancel_left hd)))

theorem mkTurnChange_id (tid tsid ts : String) (lat : Bool)
    (nm : Option String) (inp : Option ToolInput) (k : Nat) (ch : FileChange)
    (h : mkTurnChange tid tsid ts lat nm inp k = some ch) :
    ∃ tag, IsTag tag ∧ ch.id = mkId tid tsid tag k := by
  unfold mkTurnChange at h
  split at h
  · injection h with h; subst h; exact ⟨"-write-", Or.inl rfl, rfl⟩
  · injection h with h; subst h; exact ⟨"-edit-", Or.inr (Or.inl rfl), rfl⟩
  · injection h with h; subst h; exact ⟨"-multiedit-", Or.inr (Or.inr rfl), rfl⟩
  · exact absurd h (by simp)

theorem aux_mem (tid tsid ts : String) (lat : Bool) :
    ∀ (bl : List ContentBlock) (idx : Nat) (c : FileChange),
      c ∈ extractAllFileChangesAux tid tsid ts lat bl idx →
      ∃ tag k, IsTag tag ∧ idx < k ∧ c.id = mkId tid tsid tag k := by
  intro bl
  induction bl with
  | nil => intro idx c hc; simp [extractAllFileChangesAux] at hc
  | cons b rest ih =>
    intro idx c hc
    unfold extractAllFileChangesAux at hc
    by_cases hb : b.type == "tool_use"
    · rw [if_pos hb] at hc
      rcases hm : mkTurnChange tid tsid ts lat b.name b.input (idx + 1) with _ | ch
      · simp only [hm] at hc
        obtain ⟨tag, k, htag, hk, hid⟩ := ih (idx + 1) c hc
        exact ⟨tag, k, htag, by omega, hid⟩
      · simp only [hm] at hc
        by_cases hp : truthyStr ch.filePath
        · rw [if_pos hp] at hc
          rcases List.mem_cons.mp hc with rfl | hc2
          · obtain ⟨tag, htag, hid⟩ := mkTurnChange_id tid tsid ts lat b.name b.input (idx + 1) c hm
            exact ⟨tag, idx + 1, htag, by omega, hid⟩
          · obtain ⟨tag, k, htag, hk, hid⟩ := ih (idx + 1) c hc2
            exact ⟨tag, k, htag, by omega, hid⟩
        · rw [if_neg hp] at hc
          obtain ⟨tag, k, htag, hk, hid⟩ := ih (idx + 1) c hc
          exact ⟨tag, k, htag, by omega, hid⟩
    · rw [if_neg hb] at hc
      exact ih idx c hc

theorem aux_ids_nodup (tid tsid ts : String) (lat : Bool) :
    ∀ (bl : List ContentBlock) (idx : Nat),
      ((extractAllFileChangesAux tid tsid ts lat bl idx).map (·.id)).Nodup := by
  intro bl
  induction bl with
  | nil => intro idx; simp [extractAllFileChangesAux]
  | cons b rest ih =>
    intro idx
    unfold extractAllFileChangesAux
    by_cases hb : b.type == "tool_use"
    · rw [if_pos hb]
      rcases hm : mkTurnChange tid tsid ts lat b.name b.input (idx + 1) with _ | ch
      · simp only; exact ih (idx + 1)
      · simp only
        by_cases hp : truthyStr ch.filePath
        · rw [if_pos hp]
          rw [List.map_cons, List.nodup_cons]
          refine ⟨?_, ih (idx + 1)⟩
          intro hmem
          obtain ⟨c2, hc2, hid2⟩ := List.mem_map.mp hmem
          obtain ⟨tag2, k2, htag2, hk2, hcid2⟩ := aux_mem tid tsid ts lat rest (idx + 1) c2 hc2
          obtain ⟨tag, htag, hcid⟩ := mkTurnChange_id tid tsid ts lat b.name b.input (idx + 1) ch hm
          have : k2 = idx + 1 :=
            mkId_inj_k tid tsid tag2 tag k2 (idx + 1) htag2 htag (by rw [← hcid2, hid2, hcid])
          omega
        · rw [if_neg hp]; exact ih (idx + 1)
    · rw [if_neg hb]; exact ih idx

/-! ### Claim C2: changes without a target path -/

theorem aux_all_paths (tid tsid ts : String) (lat : Bool) :
    ∀ (bl : List ContentBlock) (idx : Nat),
      (extractAllFileChangesAux tid tsid ts lat bl idx).all
        (fun c => truthyStr c.filePath) = true := by
  intro bl
  induction bl with
  | nil => intro idx; rfl
  | cons b rest ih =>
    intro idx
    unfold extractAllFileChangesAux
    by_cases hb : b.type == "tool_use"
    · rw [if_pos hb]
      rcases hm : mkTurnChange tid tsid ts lat b.name b.input (idx + 1) with _ | ch
      · simp only; exact ih (idx + 1)
      · simp only
        by_cases hp : truthyStr ch.filePath
        · rw [if_pos hp]; simp [List.all_cons, hp, ih (idx + 1)]
        · rw [if_neg hp]; exact ih (idx + 1)
    · rw [if_neg hb]; exact ih idx

/-- C2 (amended): on the turn-reconstruction path, every FileChange
materialized by `extractAllFileChanges` has a truthy (present, non-empty)
target path — a change lacking a resolvable path is silently discarded. -/
theorem c2_extractAll_paths_truthy :
    ∀ (e : ClaudeLogEntry) (tid : String) (lat : Bool),
      (extractAllFileChanges e tid lat).all (fun c => truthyStr c.filePath) = true := by
  intro e tid lat
  rcases hm : e.message with _ | ⟨s | bl⟩
  · simp [extractAllFileChanges, hm]
  · simp [extractAllFileChanges, hm]
  · simp only [extractAllFileChanges, hm]
    exact aux_all_paths tid _ _ lat bl 0

/-- C2 counterexample: on the flat path, `extractFileChange` returns a
FileChange whose `filePath` is absent (`input?.file_path` undefined), and
`parseLogFile` materializes it — contradicting the claim that every
extraction path discards a change lacking a resolvable target path. -/
theorem c2_counterexample :
    (extractFileChange entryC2).map (fun c => c.filePath) = some none ∧
    (parseLogFileE [some entryC2]).map (fun c => c.filePath) = [none] := by
  decide

/-! ### Claim C4: tool-result echo classification -/

theorem textTruthy_eq_nonBlank : ∀ b, textTruthy b = nonBlankText b := by
  intro b
  rcases hb : b.text with _ | t
  · simp [textTruthy, nonBlankText, hb]
  · simp only [textTruthy, nonBlankText, hb]
    by_cases ht : t = ""
    · subst ht; decide
    · have hne : (t == "") = false := by simp [ht]
      rw [hne]; simp

/-- C4 (amended): a user entry is classified as a tool-result echo iff its
content is the array form, contains no `text` block with non-whitespace
text, and contains at least one `tool_result` block. -/
theorem c4_isToolResult_iff_amended :
    ∀ e, isToolResultEntry e = echoAmended e := by
  intro e
  rcases hm : e.message with _ | ⟨s | bl⟩
  · simp [isToolResultEntry, echoAmended, isArrContent, arrBlocks, hm]
  · simp [isToolResultEntry, echoAmended, isArrContent, arrBlocks, hm]
  · have hfun : (fun b => b.type == "text" && textTruthy b) =
        (fun b => b.type == "text" && nonBlankText b) :=
      funext fun b => by rw [textTruthy_eq_nonBlank]
    simp only [isToolResultEntry, echoAmended, isArrContent, arrBlocks, hm, hfun]
    by_cases h1 : bl.any (fun b => b.type == "text" && nonBlankText b) <;> simp [h1]

/-- C4 counterexample: an entry whose array content holds an empty `text`
block next to a `tool_result` block is classified by the code as a
tool-result echo, yet the claim's condition ("contains no text block")
does not hold for it. -/
theorem c4_counterexample :
    isToolResultEntry entryC4 = true ∧ claimC4Echo entryC4 = false := by
  decide

/-! ### Claim C5: id uniqueness -/

/-- C5 (amended): the ids of the FileChanges extracted from a single
assistant entry are pairwise distinct, even though they all share the
entry's timestamp, because each id embeds the 1-based positional counter. -/
theorem c5_ids_nodup_per_entry :
    ∀ (e : ClaudeLogEntry) (tid : String) (lat : Bool),
      ((extractAllFileChanges e tid lat).map (fun c => c.id)).Nodup := by
  intro e tid lat
  rcases hm : e.message with _ | ⟨s | bl⟩
  · simp [extractAllFileChanges, hm]
  · simp [extractAllFileChanges, hm]
  · simp only [extractAllFileChanges, hm]
    exact aux_ids_nodup tid _ _ lat bl 0

/-- C5 counterexample: two assistant entries of the same turn that share
the timestamp `"T"` yield two distinct FileChanges with the SAME id
(`s-turn-1-T-write-1`), because the positional counter resets per entry —
session-wide pairwise uniqueness fails. -/
theorem c5_counterexample :
    ¬ ((((buildTurns "s" "N" true entriesC5).map (fun t => t.fileChanges)).flatten).map
        (fun c => c.id)).Nodup := by
  decide

/-! ### Claim C9: the metadata file count -/

theorem metaStep_some_fileCount (st : MetaScan) (e : ClaudeLogEntry) :
    (metaStep st (some e)).fileCount =
      st.fileCount +
        (if e.type == "assistant" && isArrContent e then (arrBlocks e).countP mutBlock
         else 0) := by
  simp only [metaStep]
  repeat' split
  all_goals simp

theorem foldl_metaStep_fileCount :
    ∀ (lines : List (Option ClaudeLogEntry)) (st : MetaScan),
      (lines.foldl metaStep st).fileCount = st.fileCount + specFileCount lines := by
  intro lines
  induction lines with
  | nil => intro st; simp [specFileCount]
  | cons l rest ih =>
    intro st
    rcases l with _ | e
    · rw [List.foldl_cons]
      show ((rest.foldl metaStep (metaStep st none))).fileCount = _
      have hnone : metaStep st none = st := rfl
      rw [hnone, ih st]
      simp [specFileCount, List.filterMap_cons]
    · rw [List.foldl_cons, ih (metaStep st (some e)), metaStep_some_fileCount]
      have hcons : specFileCount (some e :: rest) =
          (if e.type == "assistant" && isArrContent e then (arrBlocks e).countP mutBlock
           else 0) + specFileCount rest := by
        by_cases hp : (e.type == "assistant" && isArrContent e) = true <;>
          simp [specFileCount, List.filterMap_cons, hp]
      rw [hcons]
      omega

/-- C9: for every session file, the `fileCount` computed by
`extractSessionMetadata` equals the total number of `Write`/`Edit`/
`MultiEdit` `tool_use` blocks across all parseable assistant entries with
array-form content, counting each block individually (and regardless of
whether the block carries a file path). -/
theorem c9_fileCount_eq_spec :
    ∀ (now : String) (f : SessionFile),
      (extractSessionMetadata now f).fileCount = specFileCount f.lines := by
  intro now f
  show (f.lines.foldl metaStep {}).fileCount = specFileCount f.lines
  rw [foldl_metaStep_fileCount]
  simp

/-! ### Claim C3: one change per invocation (turn path) vs the flat path -/

theorem mkTurnChange_isSome (tid tsid ts : String) (lat : Bool)
    (nm : Option String) (inp : Option ToolInput) (k : Nat) :
    (mkTurnChange tid tsid ts lat nm inp k).isSome = mutName nm := by
  unfold mkTurnChange
  split <;> simp_all [mutName]

theorem mkTurnChange_filePath (tid tsid ts : String) (lat : Bool)
    (nm : Option String) (inp : Option ToolInput) (k : Nat) (ch : FileChange)
    (h : mkTurnChange tid tsid ts lat nm inp k = some ch) :
    ch.filePath = inp.bind (·.file_path) := by
  unfold mkTurnChange at h
  split at h <;> first
    | (injection h with h; subst h; rfl)
    | simp at h

theorem aux_exact (tid tsid ts : String) (lat : Bool) :
    ∀ (bl : List ContentBlock) (idx : Nat),
      ((extractAllFileChangesAux tid tsid ts lat bl idx).map (fun c => c.filePath) =
        bl.filterMap (fun b => if mutPathBlock b then some (fpOf b) else none)) ∧
      (extractAllFileChangesAux tid tsid ts lat bl idx).length = bl.countP mutPathBlock := by
  intro bl
  induction bl with
  | nil => intro idx; simp [extractAllFileChangesAux]
  | cons b rest ih =>
    intro idx
    unfold extractAllFileChangesAux
    by_cases hb : (b.type == "tool_use") = true
    · rw [if_pos hb]
      rcases hm : mkTurnChange tid tsid ts lat b.name b.input (idx + 1) with _ | ch
      · have hmut : mutName b.name = false := by
          have hs := mkTurnChange_isSome tid tsid ts lat b.name b.input (idx + 1)
          rw [hm] at hs; simpa using hs.symm
        have hmpb : mutPathBlock b = false := by simp [mutPathBlock, mutBlock, hmut]
        simp only
        constructor
        · rw [(ih (idx + 1)).1]; simp [List.filterMap_cons, hmpb]
        · rw [(ih (idx + 1)).2]; simp [List.countP_cons, hmpb]
      · have hmut : mutName b.name = true := by
          have hs := mkTurnChange_isSome tid tsid ts lat b.name b.input (idx + 1)
          rw [hm] at hs; simpa using hs.symm
        have hmb : mutBlock b = true := by simp [mutBlock, hb, hmut]
        have hfp : ch.filePath = fpOf b :=
          mkTurnChange_filePath tid tsid ts lat b.name b.input (idx + 1) ch hm
        by_cases hp : truthyStr ch.filePath = true
        · have hfpt : truthyStr (fpOf b) = true := by rw [← hfp]; exact hp
          have hmpb : mutPathBlock b = true := by simp [mutPathBlock, hmb, hfpt]
          simp only
          rw [if_pos hp]
          constructor
          · rw [List.map_cons, (ih (idx + 1)).1, hfp]
            simp [List.filterMap_cons, hmpb]
          · rw [List.length_cons, (ih (idx + 1)).2]
            simp [List.countP_cons, hmpb]
        · have hfpf : truthyStr (fpOf b) = false := by rw [← hfp]; simpa using hp
          have hmpb : mutPathBlock b = false := by simp [mutPathBlock, hfpf]
          simp only
          rw [if_neg hp]
          constructor
          · rw [(ih (idx + 1)).1]; simp [List.filterMap_cons, hmpb]
          · rw [(ih (idx + 1)).2]; simp [List.countP_cons, hmpb]
    · rw [if_neg hb]
      have hmpb : mutPathBlock b = false := by simp [mutPathBlock, mutBlock, hb]
      constructor
      · rw [(ih idx).1]; simp [List.filterMap_cons, hmpb]
      · rw [(ih idx).2]; simp [List.countP_cons, hmpb]

theorem mkFlatChange_isSome (ts : Option String) (b : ContentBlock) :
    (mkFlatChange ts b).isSome = mutName b.name := by
  unfold mkFlatChange
  split <;> simp_all [mutName]

theorem flatAux_eq_find (ts : Option String) :
    ∀ bl, flatAux ts bl = (bl.find? mutBlock).bind (mkFlatChange ts) := by
  intro bl
  induction bl with
  | nil => rfl
  | cons b rest ih =>
    unfold flatAux
    by_cases hb : (b.type == "tool_use") = true
    · rw [if_pos hb]
      split
      · next hn =>
          have hmb : mutBlock b = true := by simp [mutBlock, hb, mutName, hn]
          rw [List.find?_cons_of_pos _ hmb]
          simp [mkFlatChange, hn]
      · next hn =>
          have hmb : mutBlock b = true := by simp [mutBlock, hb, mutName, hn]
          rw [List.find?_cons_of_pos _ hmb]
          simp [mkFlatChange, hn]
      · next hn =>
          have hmb : mutBlock b = true := by simp [mutBlock, hb, mutName, hn]
          rw [List.find?_cons_of_pos _ hmb]
          simp [mkFlatChange, hn]
      · next hn =>
          have hmut : mutName b.name = false := by simp_all [mutName]
          have hmb : mutBlock b = false := by simp [mutBlock, hmut]
          rw [List.find?_cons_of_neg _ (by simp [hmb])]
          exact ih
    · rw [if_neg hb]
      have hmb : mutBlock b = false := by simp [mutBlock, hb]
      rw [List.find?_cons_of_neg _ (by simp [hmb])]
      exact ih

/-- C3 (amended): on the turn-reconstruction path, `extractAllFileChanges`
produces exactly one FileChange per file-mutating tool invocation that
carries a truthy target path, in content order — pathless mutating
invocations are dropped while the rest of the entry is still extracted
(mixed entries included); on the flat path, `extractFileChange` returns
exactly the change built from the FIRST file-mutating invocation of the
entry (or nothing when there is none), so later mutating invocations in
the same entry never yield a FileChange there. -/
theorem c3_changes_per_invocation :
    ∀ (e : ClaudeLogEntry) (tid : String) (lat : Bool),
      ((extractAllFileChanges e tid lat).map (fun c => c.filePath) =
        (arrBlocks e).filterMap (fun b => if mutPathBlock b then some (fpOf b) else none)) ∧
      (extractAllFileChanges e tid lat).length = (arrBlocks e).countP mutPathBlock ∧
      extractFileChange e = ((arrBlocks e).find? mutBlock).bind (mkFlatChange e.timestamp) := by
  intro e tid lat
  rcases hm : e.message with _ | ⟨s | bl⟩
  · refine ⟨?_, ?_, ?_⟩ <;>
      simp [extractAllFileChanges, extractFileChange, arrBlocks, hm]
  · refine ⟨?_, ?_, ?_⟩ <;>
      simp [extractAllFileChanges, extractFileChange, arrBlocks, hm]
  · have hbl : arrBlocks e = bl := by simp [arrBlocks, hm]
    refine ⟨?_, ?_, ?_⟩
    · simp only [extractAllFileChanges, hm, hbl]
      exact (aux_exact tid _ _ lat bl 0).1
    · simp only [extractAllFileChanges, hm, hbl]
      exact (aux_exact tid _ _ lat bl 0).2
    · simp only [extractFileChange, hm, hbl]
      exact flatAux_eq_find e.timestamp bl

/-- C3 counterexample: an assistant entry with TWO `Write` invocations
(both with paths) yields a single FileChange on the flat path
(`parseLogFile`/`extractFileChange` return at the first match), not one
per invocation as claimed. -/
theorem c3_counterexample :
    (arrBlocks entryC3).countP mutBlock = 2 ∧
    (parseLogFileE [some entryC3]).length = 1 := by
  decide

/-! ### Claim C7: malformed lines are skipped without effect -/

theorem parseLogFileE_filter :
    ∀ lines, parseLogFileE lines = parseLogFileE (lines.filter Option.isSome) := by
  intro lines
  induction lines with
  | nil => rfl
  | cons l rest ih =>
    rcases l with _ | e
    · simpa [parseLogFileE, List.filter_cons] using ih
    · simp [parseLogFileE, List.filter_cons, ih]

theorem filterMap_id_filter :
    ∀ (lines : List (Option ClaudeLogEntry)),
      (lines.filter Option.isSome).filterMap id = lines.filterMap id := by
  intro lines
  induction lines with
  | nil => rfl
  | cons l rest ih =>
    rcases l with _ | e <;> simp [List.filter_cons, List.filterMap_cons, ih]

theorem foldl_metaStep_filter :
    ∀ (lines : List (Option ClaudeLogEntry)) (st : MetaScan),
      (lines.filter Option.isSome).foldl metaStep st = lines.foldl metaStep st := by
  intro lines
  induction lines with
  | nil => intro st; rfl
  | cons l rest ih =>
    intro st
    rcases l with _ | e
    · have hnone : metaStep st none = st := rfl
      simp [List.filter_cons, List.foldl_cons, hnone, ih]
    · simp [List.filter_cons, List.foldl_cons, ih]

/-- C7: a line that fails to decode is skipped without aborting the scan,
and malformed lines interleaved between valid lines leave the extracted
changes, the reconstructed turns, and the session metadata exactly as if
the malformed lines were absent. -/
theorem c7_malformed_lines_skipped :
    ∀ (sid now name : String) (lat : Bool) (mtime : Nat)
      (lines : List (Option ClaudeLogEntry)),
      parseLogFileE lines = parseLogFileE (lines.filter Option.isSome) ∧
      getSessionWithTurnsTurns sid now lat lines =
        getSessionWithTurnsTurns sid now lat (lines.filter Option.isSome) ∧
      extractSessionMetadata now ⟨name, mtime, lines⟩ =
        extractSessionMetadata now ⟨name, mtime, lines.filter Option.isSome⟩ := by
  intro sid now name lat mtime lines
  refine ⟨parseLogFileE_filter lines, ?_, ?_⟩
  · simp only [getSessionWithTurnsTurns]
    rw [filterMap_id_filter]
  · simp only [extractSessionMetadata, foldl_metaStep_filter]

/-! ### Claim C6: only turns with changes are emitted -/

theorem closeTurn_nonempty (st : TurnState)
    (h : ∀ t ∈ st.turns, t.fileChanges ≠ []) :
    ∀ t ∈ closeTurn st, t.fileChanges ≠ [] := by
  intro t ht
  unfold closeTurn at ht
  rcases hcur : st.currentTurn with _ | t0
  · rw [hcur] at ht; exact h t ht
  · rw [hcur] at ht
    simp only at ht
    by_cases hl : t0.fileChanges.length > 0
    · rw [if_pos hl] at ht
      rcases List.mem_append.mp ht with h1 | h2
      · exact h t h1
      · have ht0 : t = t0 := by simpa using h2
        subst ht0
        exact List.length_pos.mp hl
    · rw [if_neg hl] at ht; exact h t ht

theorem processAssistant_turns (sid now : String) (lat : Bool) (st : TurnState)
    (e : ClaudeLogEntry) : (processAssistant sid now lat st e).turns = st.turns := by
  unfold processAssistant
  by_cases hg : (e.type == "assistant" && isArrContent e) = true
  · rw [if_pos hg]
    rcases hc : st.currentTurn with _ | t
    · simp only
      split <;> rfl
    · rfl
  · rw [if_neg hg]

theorem processEntry_turns_nonempty (sid now : String) (lat : Bool) (st : TurnState)
    (e : ClaudeLogEntry) (h : ∀ t ∈ st.turns, t.fileChanges ≠ []) :
    ∀ t ∈ (processEntry sid now lat st e).turns, t.fileChanges ≠ [] := by
  unfold processEntry
  rw [processAssistant_turns]
  unfold processUser
  by_cases hg : (e.type == "user" && !(isToolResultEntry e)) = true
  · rw [if_pos hg]
    exact closeTurn_nonempty st h
  · rw [if_neg hg]; exact h

theorem foldl_turns_nonempty (sid now : String) (lat : Bool) :
    ∀ (entries : List ClaudeLogEntry) (st : TurnState),
      (∀ t ∈ st.turns, t.fileChanges ≠ []) →
      ∀ t ∈ (entries.foldl (processEntry sid now lat) st).turns, t.fileChanges ≠ [] := by
  intro entries
  induction entries with
  | nil => intro st h; exact h
  | cons e rest ih =>
    intro st h
    rw [List.foldl_cons]
    exact ih (processEntry sid now lat st e)
      (processEntry_turns_nonempty sid now lat st e h)

/-- C6: every conversation turn emitted by `getSessionWithTurns` holds at
least one file change; the ≥1-file-change retention rule is enforced both
when a genuine user message closes the open turn and at end of stream. -/
theorem c6_turns_have_changes :
    ∀ (sid now : String) (lat : Bool) (lines : List (Option ClaudeLogEntry)),
      (getSessionWithTurnsTurns sid now lat lines).all
        (fun t => !(t.fileChanges.isEmpty)) = true := by
  intro sid now lat lines
  rw [List.all_eq_true]
  intro t ht
  simp only [getSessionWithTurnsTurns, buildTurns] at ht
  have h0 : ∀ t2 ∈ (⟨[], none, 0⟩ : TurnState).turns, t2.fileChanges ≠ [] := by
    intro t2 ht2; simp at ht2
  have h1 := foldl_turns_nonempty sid now lat (lines.filterMap id) ⟨[], none, 0⟩ h0
  have h2 := closeTurn_nonempty _ h1 t ht
  rcases hfc : t.fileChanges with _ | ⟨c, cs⟩
  · exact absurd hfc h2
  · simp [hfc]

/-! ### Claim C1: exactly one latest session -/

/-- C1: for every set of session files containing at least one `.jsonl`
file, `getAllSessionMetadata` marks exactly one session `isLatest = true`,
and that session's last-modified time is maximal among all returned
sessions. -/
theorem c1_latest_unique_max (now : String) (files : List SessionFile)
    (h : files.filter (fun f => jsEndsWith f.name ".jsonl") ≠ []) :
    ((getAllSessionMetadata now files).filter (fun s => s.isLatest)).length = 1 ∧
    ∀ s ∈ getAllSessionMetadata now files, s.isLatest = true →
      ∀ t ∈ getAllSessionMetadata now files, t.mtime ≤ s.mtime := by
  have hfalse : ∀ x ∈ (files.filter (fun f => jsEndsWith f.name ".jsonl")).map
      (extractSessionMetadata now), x.isLatest = false := by
    intro x hx
    obtain ⟨f, hf, rfl⟩ := List.mem_map.mp hx
    rfl
  have hne : (files.filter (fun f => jsEndsWith f.name ".jsonl")).map
      (extractSessionMetadata now) ≠ [] := by
    intro hnil
    exact h (List.map_eq_nil_iff.mp hnil)
  generalize hgen : (files.filter (fun f => jsEndsWith f.name ".jsonl")).map
      (extractSessionMetadata now) = sessions at hfalse hne
  have hout : getAllSessionMetadata now files =
      (match List.insertionSort mtimeGe sessions with
       | [] => []
       | s :: rest => { s with isLatest := true } :: rest) := by
    simp only [getAllSessionMetadata]
    rw [hgen]
  rw [hout]
  have hperm := List.perm_insertionSort mtimeGe sessions
  have hsorted := List.sorted_insertionSort mtimeGe sessions
  rcases hsort : List.insertionSort mtimeGe sessions with _ | ⟨s, rest⟩
  · rw [hsort] at hperm
    exact absurd (List.Perm.eq_nil hperm.symm) hne
  · rw [hsort] at hperm hsorted
    simp only
    have hrest_false : ∀ x ∈ rest, x.isLatest = false := fun x hx =>
      hfalse x (hperm.mem_iff.mp (List.mem_cons_of_mem s hx))
    have hrest_le : ∀ x ∈ rest, x.mtime ≤ s.mtime := fun x hx =>
      (List.sorted_cons.mp hsorted).1 x hx
    constructor
    · rw [List.filter_cons]
      have hrest_nil : rest.filter (fun x => x.isLatest) = [] :=
        List.filter_eq_nil_iff.mpr (fun x hx => by simp [hrest_false x hx])
      simp [hrest_nil]
    · intro s2 hs2 hlat t ht2
      rcases List.mem_cons.mp hs2 with rfl | hs2r
      · rcases List.mem_cons.mp ht2 with rfl | ht2r
        · exact Nat.le_refl _
        · exact hrest_le t ht2r
      · exact absurd hlat (by simp [hrest_false s2 hs2r])

theorem c1_witness :
    (filesC1.filter (fun f => jsEndsWith f.name ".jsonl") ≠ []) ∧
    (((getAllSessionMetadata "NOW" filesC1).filter (fun s => s.isLatest)).length = 1 ∧
      ∀ s ∈ getAllSessionMetadata "NOW" filesC1, s.isLatest = true →
        ∀ t ∈ getAllSessionMetadata "NOW" filesC1, t.mtime ≤ s.mtime) :=
  ⟨by decide, c1_latest_unique_max "NOW" filesC1 (by decide)⟩

/-! ### Claim C8: failed reverts are not recorded -/

/-- C8: if the write/rename/delete issued while reverting fails, the
operation surfaces an I/O error, the ledger receives no entry for the
change, and `handleRevert` reports the failure to the caller rather than
a success.  (`change-tracker.ts` is not under `src/`; `revertChange` is
modelled from §4.5 of the spec, `handleRevert` is embedded from the
server source.) -/
theorem c8_revert_failure_not_recorded
    (now changeId : String) (changes : List ParsedChange) (ch : ParsedChange)
    (st : TrackerState)
    (hfind : changes.find? (fun c => c.id == changeId) = some ch)
    (hcan : ch.canRevert = true)
    (hneed : (ch.oldContent.getD "") ≠ "" ∨ (alistLookup st.fs ch.filePath).isSome = true) :
    revertChange false now ch st = .error .ioFailure ∧
    handleRevert false now changes changeId st = (.revertError (errMsg .ioFailure), st) := by
  have hrev : revertChange false now ch st = .error .ioFailure := by
    unfold revertChange
    rw [hcan]
    simp only [Bool.not_true, Bool.false_eq_true, if_false]
    by_cases hold : ((ch.oldContent.getD "") == "") = true
    · rw [if_pos hold]
      rcases hneed with hne | hsome
      · exact absurd (by simpa using hold) hne
      · rcases hl : alistLookup st.fs ch.filePath with _ | v
        · rw [hl] at hsome; simp at hsome
        · rfl
    · rw [if_neg hold]
  refine ⟨hrev, ?_⟩
  unfold handleRevert
  simp only [hfind, hrev]

theorem c8_witness :
    (([changeC8].find? (fun c => c.id == "c1") = some changeC8) ∧
      changeC8.canRevert = true ∧
      ((changeC8.oldContent.getD "") ≠ "" ∨
        (alistLookup (⟨[], []⟩ : TrackerState).fs changeC8.filePath).isSome = true)) ∧
    (revertChange false "N" changeC8 ⟨[], []⟩ = .error .ioFailure ∧
      handleRevert false "N" [changeC8] "c1" ⟨[], []⟩ =
        (.revertError (errMsg .ioFailure), (⟨[], []⟩ : TrackerState))) :=
  ⟨⟨by decide, rfl, Or.inl (by decide)⟩,
    c8_revert_failure_not_recorded "N" "c1" [changeC8] changeC8 ⟨[], []⟩
      (by decide) rfl (Or.inl (by decide))⟩

/-! ### Claim C10: early changes and the synthesized turn -/

theorem aux_empty_of_no_paths (tid tsid ts : String) (lat : Bool) :
    ∀ (bl : List ContentBlock) (idx : Nat),
      (∀ b ∈ bl, mutPathBlock b = false) →
      extractAllFileChangesAux tid tsid ts lat bl idx = [] := by
  intro bl
  induction bl with
  | nil => intro idx _; rfl
  | cons b rest ih =>
    intro idx h
    have hrest : ∀ b2 ∈ rest, mutPathBlock b2 = false :=
      fun b2 hb2 => h b2 (List.mem_cons_of_mem b hb2)
    unfold extractAllFileChangesAux
    by_cases hb : (b.type == "tool_use") = true
    · rw [if_pos hb]
      rcases hm : mkTurnChange tid tsid ts lat b.name b.input (idx + 1) with _ | ch
      · simp only; exact ih (idx + 1) hrest
      · have hmut : mutName b.name = true := by
          have hs := mkTurnChange_isSome tid tsid ts lat b.name b.input (idx + 1)
          rw [hm] at hs; simpa using hs.symm
        have hmb : mutBlock b = true := by simp [mutBlock, hb, hmut]
        have hfp : ch.filePath = fpOf b :=
          mkTurnChange_filePath tid tsid ts lat b.name b.input (idx + 1) ch hm
        have hnp : truthyStr ch.filePath = false := by
          have := h b (List.mem_cons_self b rest)
          simp only [mutPathBlock, hmb, Bool.true_and] at this
          rw [hfp]; exact this
        simp only
        rw [if_neg (by simp [hnp])]
        exact ih (idx + 1) hrest
    · rw [if_neg hb]; exact ih idx hrest

theorem extract_eq_nil_of_not_hasChange (e : ClaudeLogEntry) (tid : String)
    (lat : Bool) (h : hasChangeB e = false) :
    extractAllFileChanges e tid lat = [] := by
  rcases hm : e.message with _ | ⟨s | bl⟩
  · simp [extractAllFileChanges, hm]
  · simp [extractAllFileChanges, hm]
  · have harr : isArrContent e = true := by simp [isArrContent, hm]
    have hblocks : arrBlocks e = bl := by simp [arrBlocks, hm]
    have hany : bl.any mutPathBlock = false := by
      simp only [hasChangeB, harr, hblocks, Bool.true_and] at h
      exact h
    have hall : ∀ b ∈ bl, mutPathBlock b = false := by
      intro b hb
      have := List.any_eq_false.mp hany b hb
      simpa using this
    simp only [extractAllFileChanges, hm]
    exact aux_empty_of_no_paths tid _ _ lat bl 0 hall

theorem inert_step (sid now : String) (lat : Bool) (p : ClaudeLogEntry)
    (hp : inertEntry p = true) :
    processEntry sid now lat ⟨[], none, 0⟩ p = ⟨[], none, 0⟩ := by
  simp only [inertEntry, Bool.and_eq_true, Bool.not_eq_true'] at hp
  obtain ⟨hu, ha⟩ := hp
  unfold processEntry processUser
  rw [if_neg (by simp [hu])]
  unfold processAssistant
  by_cases hg : (p.type == "assistant" && isArrContent p) = true
  · rw [if_pos hg]
    have hfalse : (hasChangeB p || !(extractAssistantText p == "")) = false := by
      rcases Bool.and_eq_true _ _ |>.mp hg with ⟨h1, h2⟩
      simpa [h1, h2] using ha
    rw [Bool.or_eq_false_iff] at hfalse
    obtain ⟨hch0, hat0⟩ := hfalse
    have hat : (extractAssistantText p == "") = true := by
      simpa using hat0
    have hchanges : extractAllFileChanges p (turnIdOf sid none) lat = [] :=
      extract_eq_nil_of_not_hasChange p _ lat hch0
    simp only
    rw [if_neg (by simp [hchanges, hat])]
  · rw [if_neg hg]

theorem inert_fold (sid now : String) (lat : Bool) :
    ∀ (pre : List ClaudeLogEntry), (∀ p ∈ pre, inertEntry p = true) →
      pre.foldl (processEntry sid now lat) ⟨[], none, 0⟩ = ⟨[], none, 0⟩ := by
  intro pre
  induction pre with
  | nil => intro _; rfl
  | cons p rest ih =>
    intro h
    rw [List.foldl_cons, inert_step sid now lat p (h p (List.mem_cons_self p rest))]
    exact ih (fun q hq => h q (List.mem_cons_of_mem p hq))

theorem turnInv_processUser (sid now : String) (lat : Bool) (chs : List FileChange)
    (hchs : chs ≠ []) (p : ClaudeLogEntry) (st : TurnState)
    (h : TurnInv sid chs st) : TurnInv sid chs (processUser sid now lat st p) := by
  unfold processUser
  by_cases hg : (p.type == "user" && !(isToolResultEntry p)) = true
  · rw [if_pos hg]
    rcases h with ⟨hturns, t, hcur, hid, more, hfc⟩ | ⟨t, ts2, hturns, hid, more, hfc⟩
    · right
      refine ⟨t, [], ?_, hid, more, hfc⟩
      show closeTurn st = [t]
      unfold closeTurn
      rw [hcur]
      have hlen : t.fileChanges.length > 0 := by
        rw [hfc]
        have : chs.length > 0 := List.length_pos.mpr hchs
        simp [List.length_append]
        omega
      simp only
      rw [if_pos hlen, hturns]
      rfl
    · right
      rcases hcur : st.currentTurn with _ | t0
      · refine ⟨t, ts2, ?_, hid, more, hfc⟩
        show closeTurn st = t :: ts2
        unfold closeTurn
        rw [hcur, hturns]
      · by_cases hl : t0.fileChanges.length > 0
        · refine ⟨t, ts2 ++ [t0], ?_, hid, more, hfc⟩
          show closeTurn st = t :: (ts2 ++ [t0])
          unfold closeTurn
          rw [hcur]
          simp only
          rw [if_pos hl, hturns]
          rfl
        · refine ⟨t, ts2, ?_, hid, more, hfc⟩
          show closeTurn st = t :: ts2
          unfold closeTurn
          rw [hcur]
          simp only
          rw [if_neg hl, hturns]
  · rw [if_neg hg]; exact h

theorem turnInv_processAssistant (sid now : String) (lat : Bool)
    (chs : List FileChange) (p : ClaudeLogEntry) (st : TurnState)
    (h : TurnInv sid chs st) : TurnInv sid chs (processAssistant sid now lat st p) := by
  unfold processAssistant
  by_cases hg : (p.type == "assistant" && isArrContent p) = true
  · rw [if_pos hg]
    rcases h with ⟨hturns, t, hcur, hid, more, hfc⟩ | ⟨t, ts2, hturns, hid, more, hfc⟩
    · rw [hcur]
      simp only
      left
      refine ⟨hturns, _, rfl, hid, more ++ extractAllFileChanges p (turnIdOf sid st.currentTurn) lat, ?_⟩
      show t.fileChanges ++ _ = chs ++ _
      rw [hfc, List.append_assoc, hcur]
    · rcases hcur : st.currentTurn with _ | t0
      · simp only
        split
        · right; exact ⟨t, ts2, hturns, hid, more, hfc⟩
        · right; exact ⟨t, ts2, hturns, hid, more, hfc⟩
      · simp only
        right; exact ⟨t, ts2, hturns, hid, more, hfc⟩
  · rw [if_neg hg]; exact h

theorem turnInv_foldl (sid now : String) (lat : Bool) (chs : List FileChange)
    (hchs : chs ≠ []) :
    ∀ (rest : List ClaudeLogEntry) (st : TurnState), TurnInv sid chs st →
      TurnInv sid chs (rest.foldl (processEntry sid now lat) st) := by
  intro rest
  induction rest with
  | nil => intro st h; exact h
  | cons p rest2 ih =>
    intro st h
    rw [List.foldl_cons]
    exact ih _ (turnInv_processAssistant sid now lat chs p _
      (turnInv_processUser sid now lat chs hchs p st h))

theorem turnInv_closeTurn (sid : String) (chs : List FileChange)
    (hchs : chs ≠ []) (st : TurnState) (h : TurnInv sid chs st) :
    ∃ t, (closeTurn st).head? = some t ∧ t.id = sid ++ "-turn-1" ∧
      ∃ more, t.fileChanges = chs ++ more := by
  rcases h with ⟨hturns, t, hcur, hid, more, hfc⟩ | ⟨t, ts2, hturns, hid, more, hfc⟩
  · refine ⟨t, ?_, hid, more, hfc⟩
    unfold closeTurn
    rw [hcur]
    have hlen : t.fileChanges.length > 0 := by
      rw [hfc]
      have : chs.length > 0 := List.length_pos.mpr hchs
      simp [List.length_append]
      omega
    simp only
    rw [if_pos hlen, hturns]
    rfl
  · refine ⟨t, ?_, hid, more, hfc⟩
    unfold closeTurn
    rcases hcur : st.currentTurn with _ | t0
    · rw [hturns]; rfl
    · simp only
      by_cases hl : t0.fileChanges.length > 0
      · rw [if_pos hl, hturns]
        simp
      · rw [if_neg hl, hturns]
        rfl

theorem extract_id_starts (e : ClaudeLogEntry) (tid : String) (lat : Bool) :
    ∀ c ∈ extractAllFileChanges e tid lat, ∃ r, c.id = tid ++ r := by
  intro c hc
  unfold extractAllFileChanges at hc
  rcases hm : e.message with _ | ⟨s | bl⟩ <;> rw [hm] at hc
  · simp at hc
  · simp at hc
  · simp only at hc
    obtain ⟨tag, k, _, _, hid⟩ := aux_mem tid _ _ lat bl 0 c hc
    refine ⟨"-" ++ (tsTemplate e.timestamp ++ (tag ++ decRepr k)), ?_⟩
    rw [hid]
    simp [mkId, String.append_assoc]

theorem c10_step_at_e (sid now : String) (lat : Bool) (e : ClaudeLogEntry)
    (he : e.type = "assistant") (harr : isArrContent e = true)
    (hch : extractAllFileChanges e (sid ++ "-turn-0") lat ≠ []) :
    TurnInv sid (extractAllFileChanges e (sid ++ "-turn-0") lat)
      (processEntry sid now lat ⟨[], none, 0⟩ e) := by
  unfold processEntry
  have huser : processUser sid now lat ⟨[], none, 0⟩ e = ⟨[], none, 0⟩ := by
    unfold processUser
    rw [if_neg (by simp [he])]
  rw [huser]
  unfold processAssistant
  rw [if_pos (by simp [he, harr])]
  simp only
  have htid : turnIdOf sid (none : Option ConversationTurn) = sid ++ "-turn-0" := rfl
  rw [htid]
  have hlen : (extractAllFileChanges e (sid ++ "-turn-0") lat).length > 0 :=
    List.length_pos.mpr hch
  rw [if_pos (by simp [hlen])]
  left
  refine ⟨rfl, _, rfl, ?_, [], ?_⟩
  · show (appendToTurn _ _ _).id = sid ++ "-turn-1"
    show sid ++ "-turn-" ++ decRepr (0 + 1) = sid ++ "-turn-1"
    rw [String.append_assoc]
    rfl
  · show (appendToTurn _ _ _).fileChanges = _
    show [] ++ extractAllFileChanges e (sid ++ "-turn-0") lat =
      extractAllFileChanges e (sid ++ "-turn-0") lat ++ []
    simp

/-- C10 (amended): when a file-mutating assistant entry is processed while
no turn is open — it is preceded only by entries that neither start a turn
nor synthesize one (in particular it precedes every genuine user message) —
the synthesized turn holding its changes has id `<sessionId>-turn-1`,
while each of those changes has an id beginning with `<sessionId>-turn-0`;
so a change's id does not embed the id of the turn that contains it. -/
theorem c10_early_changes (sid now : String) (lat : Bool)
    (pre : List ClaudeLogEntry) (e : ClaudeLogEntry) (rest : List ClaudeLogEntry)
    (hpre : ∀ p ∈ pre, inertEntry p = true)
    (he : e.type = "assistant") (harr : isArrContent e = true)
    (hch : extractAllFileChanges e (sid ++ "-turn-0") lat ≠ []) :
    ∃ t, (buildTurns sid now lat (pre ++ e :: rest)).head? = some t ∧
      t.id = sid ++ "-turn-1" ∧
      (∃ more, t.fileChanges = extractAllFileChanges e (sid ++ "-turn-0") lat ++ more) ∧
      ∀ c ∈ extractAllFileChanges e (sid ++ "-turn-0") lat,
        ∃ r, c.id = (sid ++ "-turn-0") ++ r := by
  unfold buildTurns
  rw [List.foldl_append, inert_fold sid now lat pre hpre, List.foldl_cons]
  have hstep := c10_step_at_e sid now lat e he harr hch
  have hfold := turnInv_foldl sid now lat _ hch rest _ hstep
  obtain ⟨t, hhead, hid, hmore⟩ := turnInv_closeTurn sid _ hch _ hfold
  exact ⟨t, hhead, hid, hmore, extract_id_starts e _ lat⟩

theorem c10_witness :
    ((∀ p ∈ ([] : List ClaudeLogEntry), inertEntry p = true) ∧
      entryW10.type = "assistant" ∧ isArrContent entryW10 = true ∧
      extractAllFileChanges entryW10 ("s" ++ "-turn-0") true ≠ []) ∧
    (∃ t, (buildTurns "s" "N" true ([] ++ entryW10 :: [])).head? = some t ∧
      t.id = "s" ++ "-turn-1" ∧
      (∃ more, t.fileChanges = extractAllFileChanges entryW10 ("s" ++ "-turn-0") true ++ more) ∧
      ∀ c ∈ extractAllFileChanges entryW10 ("s" ++ "-turn-0") true,
        ∃ r, c.id = ("s" ++ "-turn-0") ++ r) :=
  ⟨⟨fun p hp => absurd hp (List.not_mem_nil p), rfl, rfl, by decide⟩,
    c10_early_changes "s" "N" true [] entryW10 []
      (fun p hp => absurd hp (List.not_mem_nil p)) rfl rfl (by decide)⟩

/-- C10 counterexample: in a session whose only entries are a text-only
assistant entry followed by a file-mutating assistant entry (no user
message at all, so the mutating entry precedes every genuine user
message), the turn holding the changes is `s-turn-1` but the change id
starts with `s-turn-1`, NOT `s-turn-0` — the claim's conclusion fails. -/
theorem c10_counterexample :
    ((buildTurns "s" "N" true entriesC10).map
        (fun t => (t.id, t.fileChanges.map (fun c => c.id))) =
      [("s-turn-1", ["s-turn-1-T-write-1"])]) ∧
    jsTake "s-turn-1-T-write-1" ("s-turn-0".length) ≠ "s-turn-0" := by
  decide
